import Mathlib

/-!
Verification of the Huskers MBB schedule pipeline
(`scripts/scrape_huskers_mbb.py` and `scripts/normalize_mbb_schedule.py`).

The Python sources are shallowly embedded below.  Strings are modelled as
Lean `String` (Python compares strings by code points, as Lean does on
`Char.toNat`); all character-level operations are implemented by structural
recursion on `String.data` so that every definition evaluates by kernel
reduction.  Character classes (`\s`, `\d`, `\w`, `str.lower`) are modelled
on their ASCII behaviour plus the common Unicode whitespace code points;
the data handled by the pipeline is ASCII.  Python's `list.sort(key=...)`
is a stable sort by the key order; it is modelled by a stable insertion
sort, which produces the same list for any total preorder.
-/

namespace MBB

/-- ASCII decimal digit, the model of regex `\d` (the inputs are ASCII). -/
def isDigitC (c : Char) : Bool := 48 ≤ c.toNat && c.toNat ≤ 57

/-- ASCII letter, the model of regex `[A-Za-z]`. -/
def isAlphaC (c : Char) : Bool :=
  (65 ≤ c.toNat && c.toNat ≤ 90) || (97 ≤ c.toNat && c.toNat ≤ 122)

/-- ASCII alphanumeric. -/
def isAlnumC (c : Char) : Bool := isDigitC c || isAlphaC c

/-- Word character, the model of regex `\w` (ASCII behaviour). -/
def isWordC (c : Char) : Bool := isAlnumC c || c = '_'

/-- ASCII lowercasing of one character, the model of `str.lower` per char. -/
def lowerC (c : Char) : Char :=
  if 65 ≤ c.toNat && c.toNat ≤ 90 then Char.ofNat (c.toNat + 32) else c

/-- Model of Python `str.lower()` (ASCII behaviour). -/
def pyLower (s : String) : String := String.mk (s.data.map lowerC)

/-- The whitespace code points recognised by Python's `str.strip` / regex `\s`:
ASCII whitespace plus the common Unicode space characters. -/
def pyWsChars : List Char :=
  [Char.ofNat 9, Char.ofNat 10, Char.ofNat 11, Char.ofNat 12, Char.ofNat 13,
   Char.ofNat 28, Char.ofNat 29, Char.ofNat 30, Char.ofNat 31, Char.ofNat 32,
   Char.ofNat 133, Char.ofNat 160, Char.ofNat 5760,
   Char.ofNat 8192, Char.ofNat 8193, Char.ofNat 8194, Char.ofNat 8195,
   Char.ofNat 8196, Char.ofNat 8197, Char.ofNat 8198, Char.ofNat 8199,
   Char.ofNat 8200, Char.ofNat 8201, Char.ofNat 8202, Char.ofNat 8232,
   Char.ofNat 8233, Char.ofNat 8239, Char.ofNat 8287, Char.ofNat 12288]

/-- Whitespace test (Python `str.isspace` per character / regex `\s`). -/
def pyIsSpace (c : Char) : Bool := pyWsChars.contains c

/-- Model of Python `str.strip()` (strip whitespace at both ends). -/
def pyStripL (l : List Char) : List Char :=
  ((l.dropWhile pyIsSpace).reverse.dropWhile pyIsSpace).reverse

/-- Model of Python `str.strip()` on `String`. -/
def pyStrip (s : String) : String := String.mk (pyStripL s.data)

/-- Numeric value of a run of ASCII digits, the model of Python `int`. -/
def digitsVal (l : List Char) : Nat := l.foldl (fun a c => a * 10 + (c.toNat - 48)) 0

/-- Decimal digits of a natural number (auxiliary for zero-padded formatting). -/
def natDigits (n : Nat) : List Char :=
  (Nat.toDigits 10 n)

/-- Zero-pad a natural number to a minimum width, the model of `%0wd`. -/
def natPad (w : Nat) (n : Nat) : String :=
  let d := natDigits n
  String.mk (List.replicate (w - d.length) '0' ++ d)

/-- Model of Python `f"{y:04d}"` for a possibly negative year. -/
def intPad4 (y : Int) : String :=
  if y < 0 then "-" ++ natPad 3 (-y).toNat else natPad 4 y.toNat

/-- `l1` is a prefix of `l2` (model of `str.startswith` on char lists). -/
def isPrefixL : List Char → List Char → Bool
  | [], _ => true
  | _ :: _, [] => false
  | a :: as, b :: bs => a = b && isPrefixL as bs

/-- Model of Python `str.startswith`. -/
def pyStartsWith (s pre : String) : Bool := isPrefixL pre.data s.data

/-- `sub` occurs as a contiguous substring of `l` (model of Python `in`). -/
def containsL (sub : List Char) : List Char → Bool
  | [] => sub.isEmpty
  | c :: t => isPrefixL sub (c :: t) || containsL sub t

/-- Model of Python `sub in s` for strings. -/
def pyContains (s sub : String) : Bool := containsL sub.data s.data

/-- Code-point lexicographic strict order on char lists (Python `str <`). -/
def listLt : List Char → List Char → Bool
  | [], [] => false
  | [], _ :: _ => true
  | _ :: _, [] => false
  | a :: as, b :: bs =>
    if a.toNat < b.toNat then true
    else if b.toNat < a.toNat then false
    else listLt as bs

/-- Python `str <` (code-point lexicographic). -/
def strLtB (a b : String) : Bool := listLt a.data b.data

/-- Python `str <=` (total order: `a <= b` iff `not (b < a)`). -/
def strLeB (a b : String) : Bool := !(strLtB b a)

/-- Python tuple comparison `(a1, a2) <= (b1, b2)` on string pairs. -/
def keyLeB (p q : String × String) : Bool :=
  strLtB p.1 q.1 || (decide (p.1 = q.1) && strLeB p.2 q.2)

/-- Truthiness of an optional string under Python `if not x` (None or ""). -/
def pyFalsyStr : Option String → Bool
  | none => true
  | some s => decide (s = "")

/-- Python `x or d` for an optional string `x` and default `d`. -/
def pyOrStr (x : Option String) (d : String) : String :=
  match x with
  | none => d
  | some s => if s = "" then d else s

/-- Model of `str.replace("Z", "+00:00")` (replaces every occurrence). -/
def replaceZ : List Char → List Char
  | [] => []
  | c :: t => if c = 'Z' then '+' :: '0' :: '0' :: ':' :: '0' :: '0' :: replaceZ t
              else c :: replaceZ t

/-- Stable insertion: `x` is placed before the first element `y` with
`le x y`, so an element inserted later stays after its ties.
Together with `stableSort` this models Python's stable `list.sort`. -/
def insertLe (le : α → α → Bool) (x : α) : List α → List α
  | [] => [x]
  | y :: t => if le x y then x :: y :: t else y :: insertLe le x t

/-- Stable sort (model of Python `list.sort`; for a total preorder a stable
sort's output is determined uniquely, so the algorithm choice is immaterial). -/
def stableSort (le : α → α → Bool) : List α → List α
  | [] => []
  | x :: t => insertLe le x (stableSort le t)

/-! ## Civil date arithmetic

The normalizer converts the capture timestamp to US Central time
(`dateutil.tz.gettz("America/Chicago")`).  The conversion below uses the
proleptic Gregorian calendar and the US daylight-saving rule in force
since 2007 (DST from the second Sunday of March, 2:00 standard time,
to the first Sunday of November, 2:00 daylight time; CST = UTC-6,
CDT = UTC-5). -/

/-- Days since 1970-01-01 of a proleptic Gregorian civil date. -/
def daysFromCivil (y : Int) (m d : Int) : Int :=
  let y := if m ≤ 2 then y - 1 else y
  let era := (if 0 ≤ y then y else y - 399) / 400
  let yoe := y - era * 400
  let doy := (153 * (if 2 < m then m - 3 else m + 9) + 2) / 5 + d - 1
  let doe := yoe * 365 + yoe / 4 - yoe / 100 + doy
  era * 146097 + doe - 719468

/-- Civil date (year, month, day) of a days-since-1970-01-01 count. -/
def civilFromDays (z : Int) : Int × Int × Int :=
  let z := z + 719468
  let era := (if 0 ≤ z then z else z - 146096) / 146097
  let doe := z - era * 146097
  let yoe := (doe - doe / 1460 + doe / 36524 - doe / 146096) / 365
  let y := yoe + era * 400
  let doy := doe - (365 * yoe + yoe / 4 - yoe / 100)
  let mp := (5 * doy + 2) / 153
  let d := doy - (153 * mp + 2) / 5 + 1
  let m := if mp < 10 then mp + 3 else mp - 9
  (if m ≤ 2 then y + 1 else y, m, d)

/-- Gregorian leap-year test. -/
def isLeap (y : Int) : Bool := (y % 4 = 0 && y % 100 ≠ 0) || y % 400 = 0

/-- Length of a month (`datetime` validates days against this). -/
def daysInMonth (y : Int) (m : Nat) : Nat :=
  match m with
  | 1 => 31 | 2 => if isLeap y then 29 else 28 | 3 => 31 | 4 => 30
  | 5 => 31 | 6 => 30 | 7 => 31 | 8 => 31 | 9 => 30 | 10 => 31
  | 11 => 30 | 12 => 31 | _ => 0

/-- Day of week of a days-since-epoch count, with 0 = Sunday. -/
def weekdayOfDays (z : Int) : Int := (z + 4).emod 7

/-- Day of month of the second Sunday of March of year `y`. -/
def secondSundayMarch (y : Int) : Int :=
  8 + (7 - weekdayOfDays (daysFromCivil y 3 1)).emod 7

/-- Day of month of the first Sunday of November of year `y`. -/
def firstSundayNov (y : Int) : Int :=
  1 + (7 - weekdayOfDays (daysFromCivil y 11 1)).emod 7

/-- Whether a UTC instant (in minutes since the epoch) falls in US
daylight-saving time under the post-2007 rule. -/
def isDSTCentral (utcMin : Int) : Bool :=
  let y := (civilFromDays (utcMin.fdiv 1440)).1
  let start := daysFromCivil y 3 (secondSundayMarch y) * 1440 + 8 * 60
  let stop := daysFromCivil y 11 (firstSundayNov y) * 1440 + 7 * 60
  decide (start ≤ utcMin) && decide (utcMin < stop)

/-- A naive civil datetime (the fields Python's `datetime` exposes that the
normalizer reads: the result of `datetime.now(CENTRAL)` or of
`.astimezone(CENTRAL)`). -/
structure PyDateTime where
  year : Int
  month : Nat
  day : Nat
  hour : Nat
  minute : Nat
  second : Nat
deriving DecidableEq

/-- An offset-aware civil datetime: civil fields plus a UTC offset in
minutes (what `datetime.fromisoformat` yields on an offset-aware string). -/
structure AwareDT where
  year : Int
  month : Nat
  day : Nat
  hour : Nat
  minute : Nat
  second : Nat
  offset : Int
deriving DecidableEq

/-- Model of `.astimezone(CENTRAL)`: convert an aware datetime to the civil
time in America/Chicago. -/
def toCentral (a : AwareDT) : PyDateTime :=
  let days := daysFromCivil a.year (Int.ofNat a.month) (Int.ofNat a.day)
  let utcMin : Int := days * 1440 + a.hour * 60 + a.minute - a.offset
  let cOff : Int := if isDSTCentral utcMin then -300 else -360
  let locMin := utcMin + cOff
  let locDays := locMin.fdiv 1440
  let rem := (locMin - locDays * 1440).toNat
  let c := civilFromDays locDays
  ⟨c.1, c.2.1.toNat, c.2.2.toNat, rem / 60, rem % 60, a.second⟩

/-- Parse an unsigned decimal field of exactly `n` digits. -/
def takeDigits (n : Nat) (l : List Char) : Option (Nat × List Char) :=
  let ds := l.take n
  if ds.length = n && ds.all isDigitC then some (digitsVal ds, l.drop n) else none

/-- Optional `:SS[.ffffff]` component after `HH:MM` (seconds default to 0;
a 1-6 digit fraction is accepted and discarded, as the normalizer never
reads sub-second fields). -/
def parseSecFrac (l : List Char) : Option (Nat × List Char) :=
  match l with
  | ':' :: r =>
    match takeDigits 2 r with
    | none => none
    | some (s, r2) =>
      match r2 with
      | '.' :: r3 =>
        let ds := r3.takeWhile isDigitC
        if 1 ≤ ds.length && ds.length ≤ 6 then some (s, r3.drop ds.length)
        else none
      | _ => some (s, r2)
  | _ => some (0, l)

/-- Model of `datetime.fromisoformat` restricted to offset-aware strings of
the shape `YYYY-MM-DD[ T]HH:MM[:SS[.ffffff]]±HH:MM` (after the normalizer's
`replace("Z", "+00:00")` this covers the scraper's `scraped_at` stamps).
A naive string (no offset) is treated as unparseable: converting it with
`.astimezone` depends on the host's local time zone, which is outside the
model, so it is grouped with the environment-dependent fallback branch. -/
def parseAware (l : List Char) : Option AwareDT :=
  match takeDigits 4 l with
  | none => none
  | some (y, r1) =>
  match r1 with
  | '-' :: r2 =>
    match takeDigits 2 r2 with
    | none => none
    | some (mo, r3) =>
    match r3 with
    | '-' :: r4 =>
      match takeDigits 2 r4 with
      | none => none
      | some (d, r5) =>
      match r5 with
      | sep :: r6 =>
        if sep = 'T' || sep = ' ' then
          match takeDigits 2 r6 with
          | none => none
          | some (h, r7) =>
          match r7 with
          | ':' :: r8 =>
            match takeDigits 2 r8 with
            | none => none
            | some (mi, r9) =>
            match parseSecFrac r9 with
            | none => none
            | some (s, r10) =>
            match r10 with
            | sg :: r11 =>
              if sg = '+' || sg = '-' then
                match takeDigits 2 r11 with
                | none => none
                | some (oh, r12) =>
                match r12 with
                | ':' :: r13 =>
                  match takeDigits 2 r13 with
                  | some (om, []) =>
                    if 1 ≤ mo && mo ≤ 12 && 1 ≤ d && d ≤ daysInMonth y mo &&
                       h ≤ 23 && mi ≤ 59 && s ≤ 59 && oh ≤ 23 && om ≤ 59 then
                      some ⟨y, mo, d, h, mi, s,
                            (if sg = '-' then -1 else 1) * (oh * 60 + om)⟩
                    else none
                  | _ => none
                | _ => none
              else none
            | _ => none
          | _ => none
        else none
      | _ => none
    | _ => none
  | _ => none

/-- Composition the normalizer performs on the capture stamp:
`datetime.fromisoformat(scraped_at.replace("Z", "+00:00")).astimezone(CENTRAL)`,
returning `none` where Python raises (the unparseable case). -/
def fromisoToCentral (s : String) : Option PyDateTime :=
  (parseAware (replaceZ s.data)).map toCentral

/-! ## normalize_mbb_schedule.py -/

/-- The fixed month table `MONTH_IDX`. -/
def monthIdx (k : String) : Option Nat :=
  match k with
  | "jan" => some 1 | "feb" => some 2 | "mar" => some 3 | "apr" => some 4
  | "may" => some 5 | "jun" => some 6 | "jul" => some 7 | "aug" => some 8
  | "sep" => some 9 | "oct" => some 10 | "nov" => some 11 | "dec" => some 12
  | _ => none

/-- Character class `[a-z0-9]` used by `slug`. -/
def isLowAlnumC (c : Char) : Bool := isDigitC c || (97 ≤ c.toNat && c.toNat ≤ 122)

/-- One maximal run of non-`[a-z0-9]` characters becomes a single dash
(model of `re.sub(r"[^a-z0-9]+", "-", s)`); `inRun` records whether the
previous character belonged to such a run. -/
def dashNonAlnumGo (inRun : Bool) : List Char → List Char
  | [] => []
  | c :: t =>
    if isLowAlnumC c then c :: dashNonAlnumGo false t
    else if inRun then dashNonAlnumGo true t
    else '-' :: dashNonAlnumGo true t

/-- Entry point of the non-alphanumeric-run replacement. -/
def dashNonAlnum (l : List Char) : List Char := dashNonAlnumGo false l

/-- Collapse runs of dashes (model of `re.sub(r"-+", "-", s)`). -/
def collapseDashesGo (prevDash : Bool) : List Char → List Char
  | [] => []
  | c :: t =>
    if c = '-' then
      if prevDash then collapseDashesGo true t
      else '-' :: collapseDashesGo true t
    else c :: collapseDashesGo false t

/-- Entry point of the dash-run collapse. -/
def collapseDashes (l : List Char) : List Char := collapseDashesGo false l

/-- Strip dashes at both ends (model of `str.strip("-")`). -/
def stripDashes (l : List Char) : List Char :=
  ((l.dropWhile (· = '-')).reverse.dropWhile (· = '-')).reverse

/-- `slug` from normalize_mbb_schedule.py: lowercase, strip, replace
non-alphanumeric runs by dashes, collapse dashes, strip dashes. -/
def slug (s : String) : String :=
  let s1 := pyStripL (pyLower s).data
  String.mk (stripDashes (collapseDashes (dashNonAlnum s1)))

/-- `detect_season_start_year` from normalize_mbb_schedule.py. -/
def detect_season_start_year (scraped : PyDateTime) : Int :=
  if scraped.month ≤ 3 then scraped.year - 1 else scraped.year

/-- Character class `[A-Za-z.]` of the date-text month token. -/
def isTokC (c : Char) : Bool := isAlphaC c || c = '.'

/-- The month key the normalizer looks up: periods removed, first three
characters, lowercased (`m.group(1).replace(".", "")[:3].lower()`). -/
def monKey (tok : List Char) : String :=
  String.mk (((tok.filter fun c => !(c = '.')).take 3).map lowerC)

/-- ISO formatting `f"{year:04d}-{mon:02d}-{day:02d}"`. -/
def isoFmt (y : Int) (m d : Nat) : String :=
  intPad4 y ++ "-" ++ natPad 2 m ++ "-" ++ natPad 2 d

/-- `parse_date_from_text` from normalize_mbb_schedule.py.  The regex
`\s*([A-Za-z.]+)\s+(\d{1,2})\s*$` is realised by maximal-munch spans,
which agrees with the regex's backtracking because the three character
classes (whitespace, `[A-Za-z.]`, digits) are pairwise disjoint and the
trailer admits only whitespace (so the `$`-before-final-newline case adds
nothing: `\s` already contains the newline). -/
def parse_date_from_text (label : String) (season_start_year : Int) : Option String :=
  if label = "" then none
  else
    let cs := label.data
    let afterWs := cs.dropWhile pyIsSpace
    let tok := afterWs.takeWhile isTokC
    let rest1 := afterWs.dropWhile isTokC
    if tok = [] then none
    else
      let ws2 := rest1.takeWhile pyIsSpace
      let rest2 := rest1.dropWhile pyIsSpace
      if ws2 = [] then none
      else
        let ds := rest2.takeWhile isDigitC
        let rest3 := rest2.dropWhile isDigitC
        if ds = [] ∨ 2 < ds.length then none
        else if rest3.all pyIsSpace = false then none
        else
          match monthIdx (monKey tok) with
          | none => none
          | some mon =>
            let day := digitsVal ds
            let year := if mon < 8 then season_start_year + 1
                        else season_start_year
            some (isoFmt year mon day)

/-- Leftmost occurrence (if any) of the case-insensitive literal
`presented by` that can head a match of `\s*presented by\b.*$`: the word
boundary after the literal must hold and the rest of the line must reach
`$` (no interior newline). Returns the literal's start index. -/
def pbLit : List Char := "presented by".data

/-- Does the lowercased text start with the pattern literal? -/
def litAt (pat : List Char) : List Char → Bool
  | l => isPrefixL pat (l.map lowerC)

/-- `\b.*$` condition on the text following the literal. -/
def pbTailOk (l : List Char) : Bool :=
  (match l with | [] => true | c :: _ => !isWordC c) &&
  (l.dropLast.all fun c => !(c = '\n'))

/-- Smallest index at which the `presented by` literal matches with a valid
boundary and tail. -/
def pbFind : List Char → Nat → Option Nat
  | [], _ => none
  | c :: t, j =>
    if litAt pbLit (c :: t) && pbTailOk ((c :: t).drop pbLit.length) then some j
    else pbFind t (j + 1)

/-- Model of `re.sub(r"\s*presented by\b.*$", "", s, flags=re.I)`: the
leftmost match starts at the literal position minus the maximal whitespace
run just before it and extends to the end of the string (or to a lone
final newline, which `$` leaves in place). -/
def subPresentedBy (s : String) : String :=
  let cs := s.data
  match pbFind cs 0 with
  | none => s
  | some j =>
    let k := ((cs.take j).reverse.takeWhile pyIsSpace).length
    let tail := cs.drop (j + pbLit.length)
    let keepNl : Bool := !tail.isEmpty && (tail.getLastD ' ' = '\n')
    String.mk (cs.take (j - k) ++ if keepNl then ['\n'] else [])

/-- A `result` object of a raw record (`{"outcome": ..., "sets": ...}`). -/
structure RawResult where
  outcome : Option String
  sets : Option String
deriving DecidableEq

/-- A `links` entry of a raw record. -/
structure RawLink where
  title : Option String
  href : String
deriving DecidableEq

/-- A raw item as the normalizer reads it (`it.get(...)`): every field is
optional, `none` modelling an absent key or JSON `null`. -/
structure RawItem where
  date : Option String := none
  date_text : Option String := none
  time_local : Option String := none
  venue_type : Option String := none
  nu_rank : Option Int := none
  opp_rank : Option Int := none
  opponent_name : Option String := none
  city : Option String := none
  arena : Option String := none
  nebraska_logo_url : Option String := none
  opponent_logo_url : Option String := none
  tv_network_logo_url : Option String := none
  status : Option String := none
  result : Option RawResult := none
  links : Option (List RawLink) := none
  networks : Option (List String) := none
deriving DecidableEq

/-- A canonical schedule row as emitted by `normalize`. -/
structure Row where
  date : String
  time_local : Option String
  home_away : String
  nu_rank : Option Int
  opponent : String
  opp_rank : Option Int
  title : String
  arena : Option String
  city : Option String
  arena_key : String
  nu_logo : Option String
  opp_logo : Option String
  tv_logo : Option String
  tv : List String
  status : String
  result : Option String
  result_css : Option String
  notes : Option String
  links : List RawLink
deriving DecidableEq

/-- Python string interpolation of an optional value (`f"{x}"` renders
`None` as the text `None`). -/
def pyFmtOpt (o : Option String) : String :=
  match o with
  | none => "None"
  | some s => s

/-- The arena value after `(it.get("arena") or "").strip() or None` and the
conditional `presented by` stripping (an empty result of the stripping
stays an empty string, not `None`, exactly as in the source). -/
def arenaFieldOfRaw (o : Option String) : Option String :=
  let a0 := pyStrip (o.getD "")
  if a0 = "" then none else some (pyStrip (subPresentedBy a0))

/-- `arena_key = slug(arena or "unknown")`. -/
def arenaKeyOfRaw (o : Option String) : String :=
  slug (pyOrStr (arenaFieldOfRaw o) "unknown")

/-- The exhibition phrase the normalizer tests with Python `in`. -/
def exhibitionPhrase : String := "opening night presented by scheels"

/-- The body of `normalize`'s per-item loop: `none` models `continue`
(the record is dropped), `some` the appended row. -/
def rowOfItem (season_start_year : Int) (it : RawItem) : Option Row :=
  let raw_opp := pyStrip (it.opponent_name.getD "")
  if raw_opp = "" then none
  else
    let opp_lower := pyLower raw_opp
    if pyContains opp_lower exhibitionPhrase then none
    else if pyStartsWith opp_lower "big ten " then none
    else
      let dOpt : Option String :=
        if pyFalsyStr it.date then
          parse_date_from_text (it.date_text.getD "") season_start_year
        else it.date
      match dOpt with
      | none => none
      | some date_iso =>
        if date_iso = "" then none
        else
          let han := pyOrStr it.venue_type "N"
          let cityS := pyStrip (it.city.getD "")
          let city : Option String := if cityS = "" then none else some cityS
          let arena := arenaFieldOfRaw it.arena
          let arena_key := arenaKeyOfRaw it.arena
          let res := it.result
          let status0 := pyOrStr it.status
            (if res.isSome then "final" else "scheduled")
          let status :=
            if status0 = "final" || status0 = "scheduled" || status0 = "tbd"
            then status0
            else if res.isSome then "final" else "scheduled"
          let result_str := res.map fun r =>
            pyFmtOpt r.outcome ++ " " ++ pyFmtOpt r.sets
          let result_css := res.bind fun r =>
            match r.outcome with
            | some "W" => some "W"
            | some "L" => some "L"
            | some "T" => some "T"
            | _ => none
          let opp := if raw_opp = "" then "TBA" else raw_opp
          some { date := date_iso
                 time_local := it.time_local
                 home_away := han
                 nu_rank := it.nu_rank
                 opponent := opp
                 opp_rank := it.opp_rank
                 title := opp
                 arena := arena
                 city := city
                 arena_key := arena_key
                 nu_logo := it.nebraska_logo_url
                 opp_logo := it.opponent_logo_url
                 tv_logo := it.tv_network_logo_url
                 tv := it.networks.getD []
                 status := status
                 result := result_str
                 result_css := result_css
                 notes := none
                 links := it.links.getD [] }

/-- The sort key `(x.get("date") or "9999-12-31", x.get("time_local") or "23:59")`. -/
def sortKeyRow (r : Row) : String × String :=
  (if r.date = "" then "9999-12-31" else r.date,
   match r.time_local with
   | none => "23:59"
   | some t => if t = "" then "23:59" else t)

/-- The comparison `list.sort` uses on the keys. -/
def rowLe (a b : Row) : Bool := keyLeB (sortKeyRow a) (sortKeyRow b)

/-- `normalize` from normalize_mbb_schedule.py.  `now` is the civil Central
time `datetime.now(CENTRAL)` would return: the only ambient input, consulted
solely when the capture stamp does not parse. -/
def normalize (items : List RawItem) (scraped_at : String) (now : PyDateTime) :
    List Row :=
  let scraped := (fromisoToCentral scraped_at).getD now
  let season_start_year := detect_season_start_year scraped
  stableSort rowLe (items.filterMap (rowOfItem season_start_year))

/-! ## scrape_huskers_mbb.py -/

/-- Helper of the opponent-name rank match: the state after `#\s*` and the
1-2 digits, holding the candidate rank `v`; `u` is the text after the
digits and `orig` the unchanged input returned when the match fails.
`\s+(.*)$` succeeds iff `u` opens with whitespace and, past the maximal
whitespace run, no newline remains except possibly a final one. -/
def nameRankTail (v : Nat) (u : List Char) (orig : String) : Option Nat × String :=
  match u with
  | [] => (none, orig)
  | c :: _ =>
    if pyIsSpace c then
      let tailMax := u.dropWhile pyIsSpace
      if tailMax.dropLast.all (fun ch => !(ch = '\n')) then
        (some v, pyStrip (String.mk tailMax))
      else (none, orig)
    else (none, orig)

/-- Model of lines 122-127 of parse_event:
`m = re.match(r"#\s*(\d{1,2})\s+(.*)$", opponent_name)`; on a match the
rank is `int(m.group(1))` and the name becomes `m.group(2).strip()`.
A two-digit take that fails the following `\s+` cannot be rescued by
backtracking to one digit (the next character is then a digit, not
whitespace), so maximal munch is faithful. -/
def nameRankMatch (s : String) : Option Nat × String :=
  match s.data with
  | '#' :: rest =>
    match rest.dropWhile pyIsSpace with
    | d1 :: t1 =>
      if isDigitC d1 then
        match t1 with
        | d2 :: t2 =>
          if isDigitC d2 then nameRankTail (digitsVal [d1, d2]) t2 s
          else nameRankTail (digitsVal [d1]) t1 s
        | [] => (none, s)
      else (none, s)
    | [] => (none, s)
  | _ => (none, s)

/-- Model of `re.search(r"#\s*(\d{1,2})", txt)` used for the wrapper texts
and the dedicated rank-label nodes: scan for the first `#` followed
(after optional whitespace) by a digit, and take one or two digits. -/
def searchRankL : List Char → Option Nat
  | [] => none
  | c :: t =>
    if c = '#' then
      match t.dropWhile pyIsSpace with
      | d1 :: t1 =>
        if isDigitC d1 then
          some (match t1 with
                | d2 :: _ => if isDigitC d2 then digitsVal [d1, d2]
                             else digitsVal [d1]
                | [] => digitsVal [d1])
        else searchRankL t
      | [] => searchRankL t
    else searchRankL t

/-- `re.search` rank extraction on a `String`. -/
def searchRank (txt : String) : Option Nat := searchRankL txt.data

/-- JavaScript `x || y` for a string-valued attribute (empty is falsy). -/
def jsOrStr (x : Option String) (y : String) : String :=
  match x with
  | none => y
  | some s => if s = "" then y else s

/-- One `if val and not val.startswith("data:image"): return val` step. -/
def attrStep (x : Option String) (k : Option String) : Option String :=
  match x with
  | none => k
  | some s => if !(s = "") && !pyStartsWith s "data:image" then some s else k

/-- `get_img_src` from scrape_huskers_mbb.py, as a function of the three
source values an `img` element can carry: its currently rendered source,
its `src`, and its `data-src` (the JS step `el.currentSrc || el.src ||
el.getAttribute('data-src') || ''`, then direct attribute fallbacks). -/
def get_img_src (current src dataSrc : Option String) : Option String :=
  let cur := jsOrStr current (jsOrStr src (jsOrStr dataSrc ""))
  if !(cur = "") && !pyStartsWith cur "data:image" then some cur
  else attrStep src (attrStep dataSrc none)

/-- The selection rule as the specification words it: the first of the
given sources that is present (non-empty) and does not begin with
`data:image`; no URL otherwise. -/
def firstNonDataUrl : List (Option String) → Option String
  | [] => none
  | x :: t =>
    match x with
    | none => firstNonDataUrl t
    | some s =>
      if !(s = "") && !pyStartsWith s "data:image" then some s
      else firstNonDataUrl t

/-- The three logo URL fields of a raw record (parse_event lines 103-104
and 230-235): each is `get_img_src` of an image element when the wrapper
or link image exists, else absent. -/
def logoFieldsOfEvent
    (w1 w2 tvimg : Option (Option String × Option String × Option String)) :
    Option String × Option String × Option String :=
  (w1.bind fun a => get_img_src a.1 a.2.1 a.2.2,
   w2.bind fun a => get_img_src a.1 a.2.1 a.2.2,
   tvimg.bind fun a => get_img_src a.1 a.2.1 a.2.2)

/-! ## Character-class lemmas -/

theorem pyIsSpace_mem {c : Char} (h : pyIsSpace c = true) : c ∈ pyWsChars := by
  simpa [pyIsSpace, List.contains] using h

theorem ws_not_tok {c : Char} (h : pyIsSpace c = true) : isTokC c = false := by
  have hm := pyIsSpace_mem h
  have hall : pyWsChars.all (fun c => !isTokC c) = true := by decide
  simpa using List.all_eq_true.mp hall c hm

theorem ws_not_digit {c : Char} (h : pyIsSpace c = true) : isDigitC c = false := by
  have hm := pyIsSpace_mem h
  have hall : pyWsChars.all (fun c => !isDigitC c) = true := by decide
  simpa using List.all_eq_true.mp hall c hm

theorem tok_not_ws {c : Char} (h : isTokC c = true) : pyIsSpace c = false := by
  by_contra hc
  have := ws_not_tok (c := c) (by revert hc; cases pyIsSpace c <;> simp)
  simp [this] at h

theorem digit_not_ws {c : Char} (h : isDigitC c = true) : pyIsSpace c = false := by
  by_contra hc
  have := ws_not_digit (c := c) (by revert hc; cases pyIsSpace c <;> simp)
  simp [this] at h

theorem digit_toNat_bounds {c : Char} (h : isDigitC c = true) :
    48 ≤ c.toNat ∧ c.toNat ≤ 57 := by
  simp [isDigitC] at h
  exact h

/-! ## The key order used by the sort -/

theorem listLt_irrefl : ∀ (a : List Char), listLt a a = false
  | [] => rfl
  | c :: t => by simp [listLt, listLt_irrefl t]

theorem char_eq_of_toNat {a b : Char} (h : a.toNat = b.toNat) : a = b := by
  cases a; cases b
  simp_all [Char.toNat, Char.ext_iff]
  apply UInt32.eq_of_toBitVec_eq
  exact BitVec.toNat_injective h

theorem listLt_trans : ∀ (a b c : List Char),
    listLt a b = true → listLt b c = true → listLt a c = true
  | [], [], _, h1, _ => by simp [listLt] at h1
  | [], _ :: _, [], _, h2 => by simp [listLt] at h2
  | [], _ :: _, _ :: _, _, _ => by simp [listLt]
  | _ :: _, [], _, h1, _ => by simp [listLt] at h1
  | _ :: _, _ :: _, [], _, h2 => by simp [listLt] at h2
  | a :: as, b :: bs, c :: cs, h1, h2 => by
    simp only [listLt] at h1 h2 ⊢
    by_cases hab : a.toNat < b.toNat <;> by_cases hba : b.toNat < a.toNat <;>
      by_cases hbc : b.toNat < c.toNat <;> by_cases hcb : c.toNat < b.toNat <;>
        simp [hab, hba, hbc, hcb] at h1 h2 ⊢ <;>
          first
            | omega
            | exact Or.inl (by omega)
            | exact Or.inr ⟨by omega, listLt_trans as bs cs h1 h2⟩

theorem listLt_total : ∀ (a b : List Char),
    listLt a b = true ∨ a = b ∨ listLt b a = true
  | [], [] => Or.inr (Or.inl rfl)
  | [], _ :: _ => Or.inl (by simp [listLt])
  | _ :: _, [] => Or.inr (Or.inr (by simp [listLt]))
  | a :: as, b :: bs => by
    by_cases hab : a.toNat < b.toNat
    · exact Or.inl (by simp [listLt, hab])
    · by_cases hba : b.toNat < a.toNat
      · exact Or.inr (Or.inr (by simp [listLt, hba]))
      · have hc : a = b := char_eq_of_toNat (by omega)
        rcases listLt_total as bs with h | h | h
        · exact Or.inl (by simp [listLt, hab, hba, h])
        · exact Or.inr (Or.inl (by rw [hc, h]))
        · exact Or.inr (Or.inr (by simp [listLt, hab, hba, h]))

theorem str_eq_of_data {a b : String} (h : a.data = b.data) : a = b := by
  cases a; cases b
  simp only at h
  rw [h]

theorem strLt_total (a b : String) :
    strLtB a b = true ∨ a = b ∨ strLtB b a = true := by
  rcases listLt_total a.data b.data with h | h | h
  · exact Or.inl h
  · exact Or.inr (Or.inl (str_eq_of_data h))
  · exact Or.inr (Or.inr h)

theorem strLt_asymm {a b : String} (h1 : strLtB a b = true)
    (h2 : strLtB b a = true) : False := by
  have := listLt_trans _ _ _ h1 h2
  simp [strLtB] at this
  simp [listLt_irrefl] at this

theorem keyLeB_total (p q : String × String) :
    keyLeB p q = true ∨ keyLeB q p = true := by
  rcases strLt_total p.1 q.1 with h | h | h
  · exact Or.inl (by simp [keyLeB, h])
  · rcases strLt_total p.2 q.2 with h2 | h2 | h2
    · refine Or.inl ?_
      simp [keyLeB, h, strLeB]
      refine Or.inr ?_
      cases hq : strLtB q.2 p.2
      · rfl
      · exact absurd (strLt_asymm h2 hq) (by simp)
    · exact Or.inl (by simp [keyLeB, h, strLeB, h2, strLtB, listLt_irrefl])
    · refine Or.inr ?_
      simp [keyLeB, h.symm, strLeB]
      refine Or.inr ?_
      cases hq : strLtB p.2 q.2
      · rfl
      · exact absurd (strLt_asymm h2 hq) (by simp)
  · exact Or.inr (by simp [keyLeB, h])

theorem keyLeB_trans {p q r : String × String} (h1 : keyLeB p q = true)
    (h2 : keyLeB q r = true) : keyLeB p r = true := by
  simp only [keyLeB, Bool.or_eq_true, Bool.and_eq_true, decide_eq_true_eq] at h1 h2 ⊢
  rcases h1 with h1 | ⟨h1e, h1le⟩
  · rcases h2 with h2 | ⟨h2e, _⟩
    · exact Or.inl (listLt_trans _ _ _ h1 h2)
    · exact Or.inl (h2e ▸ h1)
  · rcases h2 with h2 | ⟨h2e, h2le⟩
    · exact Or.inl (h1e ▸ h2)
    · refine Or.inr ⟨h1e.trans h2e, ?_⟩
      simp only [strLeB, Bool.not_eq_true'] at h1le h2le ⊢
      by_contra hc
      simp only [Bool.not_eq_false] at hc
      rcases strLt_total p.2 q.2 with hx | hx | hx
      · have := listLt_trans _ _ _ hc hx
        simp [strLtB] at this h2le
        simp [h2le] at this
      · rw [hx] at hc
        simp [hc] at h2le
      · simp [hx] at h1le

/-! ## Stable sort lemmas -/

theorem mem_insertLe (le : α → α → Bool) (x : α) :
    ∀ (l : List α) (a : α), a ∈ insertLe le x l ↔ a = x ∨ a ∈ l
  | [], a => by simp [insertLe]
  | y :: t, a => by
    by_cases hxy : le x y = true
    · simp only [insertLe, hxy, if_true]
      simp [List.mem_cons]
    · have hxyf : le x y = false := by revert hxy; cases le x y <;> simp
      simp only [insertLe, hxyf, Bool.false_eq_true, if_false]
      simp [List.mem_cons, mem_insertLe le x t a]
      tauto

theorem mem_stableSort (le : α → α → Bool) :
    ∀ (l : List α) (a : α), a ∈ stableSort le l ↔ a ∈ l
  | [], a => by simp [stableSort]
  | x :: t, a => by
    simp [stableSort, mem_insertLe, mem_stableSort le t a, List.mem_cons]

theorem pairwise_insertLe (le : α → α → Bool)
    (total : ∀ a b, le a b = true ∨ le b a = true)
    (htrans : ∀ a b c, le a b = true → le b c = true → le a c = true) (x : α) :
    ∀ (l : List α), l.Pairwise (fun a b => le a b = true) →
      (insertLe le x l).Pairwise (fun a b => le a b = true)
  | [], _ => by simp [insertLe]
  | y :: t, h => by
    rcases List.pairwise_cons.mp h with ⟨hy, ht⟩
    by_cases hxy : le x y = true
    · simp only [insertLe, hxy, if_true]
      refine List.pairwise_cons.mpr ⟨?_, h⟩
      intro z hz
      rcases List.mem_cons.mp hz with rfl | hz'
      · exact hxy
      · exact htrans x y z hxy (hy z hz')
    · have hxyf : le x y = false := by revert hxy; cases le x y <;> simp
      have hyx : le y x = true := by
        rcases total x y with h' | h'
        · rw [h'] at hxyf; cases hxyf
        · exact h'
      simp only [insertLe, hxyf, Bool.false_eq_true, if_false]
      refine List.pairwise_cons.mpr ⟨?_, pairwise_insertLe le total htrans x t ht⟩
      intro z hz
      rcases (mem_insertLe le x t z).mp hz with rfl | hz'
      · exact hyx
      · exact hy z hz'

theorem pairwise_stableSort (le : α → α → Bool)
    (total : ∀ a b, le a b = true ∨ le b a = true)
    (htrans : ∀ a b c, le a b = true → le b c = true → le a c = true) :
    ∀ (l : List α), (stableSort le l).Pairwise (fun a b => le a b = true)
  | [] => by simp [stableSort]
  | x :: t =>
    pairwise_insertLe le total htrans x _ (pairwise_stableSort le total htrans t)

theorem rowLe_total (a b : Row) : rowLe a b = true ∨ rowLe b a = true :=
  keyLeB_total _ _

theorem rowLe_trans (a b c : Row) (h1 : rowLe a b = true)
    (h2 : rowLe b c = true) : rowLe a c = true :=
  keyLeB_trans h1 h2

/-- The output of `normalize` is pairwise ordered by the sort key. -/
theorem normalize_pairwise (items : List RawItem) (s : String) (now : PyDateTime) :
    (normalize items s now).Pairwise (fun a b => rowLe a b = true) :=
  pairwise_stableSort rowLe rowLe_total rowLe_trans _

/-! ## Span lemmas and the date-text characterization -/

theorem span_eq_of (p : Char → Bool) :
    ∀ (l1 l2 : List Char), (∀ c ∈ l1, p c = true) →
      (∀ c, l2.head? = some c → p c = false) →
      (l1 ++ l2).takeWhile p = l1 ∧ (l1 ++ l2).dropWhile p = l2
  | [], l2, _, h2 => by
    cases l2 with
    | nil => exact ⟨rfl, rfl⟩
    | cons c t =>
      have := h2 c rfl
      constructor
      · simp [List.takeWhile_cons, this]
      · simp [List.dropWhile_cons, this]
  | c :: t, l2, h1, h2 => by
    have hc : p c = true := h1 c (by simp)
    have ih := span_eq_of p t l2 (fun d hd => h1 d (by simp [hd])) h2
    constructor
    · simp [List.takeWhile_cons, hc, ih.1]
    · simp [List.dropWhile_cons, hc, ih.2]

/-- Declarative reading of the claim's pattern `<month-token> <day>`:
the label splits into optional whitespace, a non-empty token of letters
and periods, whitespace, a 1-2 digit day and optional trailing whitespace;
the token's first three letters (periods removed, lowercased) name a month
of the fixed table; the result carries the season-start-year rule. -/
def TextDatePattern (label : String) (y : Int) (s : String) : Prop :=
  ∃ ws1 tok ws2 ds ws3 mon,
    label.data = ws1 ++ tok ++ ws2 ++ ds ++ ws3 ∧
    (∀ c ∈ ws1, pyIsSpace c = true) ∧
    (∀ c ∈ ws2, pyIsSpace c = true) ∧
    (∀ c ∈ ws3, pyIsSpace c = true) ∧
    ws2 ≠ [] ∧ tok ≠ [] ∧ (∀ c ∈ tok, isTokC c = true) ∧
    ds ≠ [] ∧ ds.length ≤ 2 ∧ (∀ c ∈ ds, isDigitC c = true) ∧
    monthIdx (monKey tok) = some mon ∧
    s = isoFmt (if mon < 8 then y + 1 else y) mon (digitsVal ds)

theorem parse_date_some_iff (label : String) (y : Int) (s : String) :
    parse_date_from_text label y = some s ↔ TextDatePattern label y s := by
  constructor
  · intro h
    simp only [parse_date_from_text] at h
    by_cases hl : label = ""
    · rw [if_pos hl] at h; cases h
    rw [if_neg hl] at h
    set afterWs := label.data.dropWhile pyIsSpace with hA
    set tok := afterWs.takeWhile isTokC with hT
    set rest1 := afterWs.dropWhile isTokC with hR1
    set ws2 := rest1.takeWhile pyIsSpace with hW2
    set rest2 := rest1.dropWhile pyIsSpace with hR2
    set ds := rest2.takeWhile isDigitC with hD
    set rest3 := rest2.dropWhile isDigitC with hR3
    by_cases htok : tok = []
    · rw [if_pos htok] at h; cases h
    rw [if_neg htok] at h
    by_cases hws2 : ws2 = []
    · rw [if_pos hws2] at h; cases h
    rw [if_neg hws2] at h
    by_cases hds : ds = [] ∨ 2 < ds.length
    · rw [if_pos hds] at h; cases h
    rw [if_neg hds] at h
    push_neg at hds
    by_cases hall : rest3.all pyIsSpace = false
    · rw [if_pos hall] at h; cases h
    rw [if_neg hall] at h
    have halltrue : rest3.all pyIsSpace = true := by
      revert hall; cases rest3.all pyIsSpace <;> simp
    cases hidx : monthIdx (monKey tok) with
    | none => rw [hidx] at h; cases h
    | some mon =>
      rw [hidx] at h
      simp only [Option.some.injEq] at h
      have e1 : label.data.takeWhile pyIsSpace ++ afterWs = label.data :=
        List.takeWhile_append_dropWhile ..
      have e2 : tok ++ rest1 = afterWs := List.takeWhile_append_dropWhile ..
      have e3 : ws2 ++ rest2 = rest1 := List.takeWhile_append_dropWhile ..
      have e4 : ds ++ rest3 = rest2 := List.takeWhile_append_dropWhile ..
      refine ⟨label.data.takeWhile pyIsSpace, tok, ws2, ds, rest3, mon,
        ?_, ?_, ?_, ?_, hws2, htok, ?_, hds.1, by omega, ?_, hidx, h.symm⟩
      · calc label.data
            = label.data.takeWhile pyIsSpace ++ (tok ++ (ws2 ++ (ds ++ rest3))) := by
              rw [e4, e3, e2, e1]
          _ = label.data.takeWhile pyIsSpace ++ tok ++ ws2 ++ ds ++ rest3 := by
              simp [List.append_assoc]
      · intro c hc; exact List.mem_takeWhile_imp hc
      · intro c hc; exact List.mem_takeWhile_imp hc
      · intro c hc; exact List.all_eq_true.mp halltrue c hc
      · intro c hc; exact List.mem_takeWhile_imp hc
      · intro c hc; exact List.mem_takeWhile_imp hc
  · rintro ⟨ws1, tok, ws2, ds, ws3, mon, hsplit, hws1, hws2a, hws3, hws2ne, htokne,
      htokc, hdsne, hdslen, hdsc, hidx, hs⟩
    have hlabel : label ≠ "" := by
      intro hl
      rw [hl] at hsplit
      rcases tok with _ | ⟨c, t⟩
      · exact htokne rfl
      · rcases ws1 with _ | _ <;> simp at hsplit
    have hhead1 : ∀ c, (tok ++ ws2 ++ ds ++ ws3).head? = some c → pyIsSpace c = false := by
      rcases tok with _ | ⟨c0, t0⟩
      · exact absurd rfl htokne
      · intro c hc
        simp at hc
        rw [← hc]
        exact tok_not_ws (htokc c0 (by simp))
    have hsp1 := span_eq_of pyIsSpace ws1 (tok ++ ws2 ++ ds ++ ws3) hws1 hhead1
    have hhead2 : ∀ c, (ws2 ++ ds ++ ws3).head? = some c → isTokC c = false := by
      rcases ws2 with _ | ⟨c0, t0⟩
      · exact absurd rfl hws2ne
      · intro c hc
        simp at hc
        rw [← hc]
        exact ws_not_tok (hws2a c0 (by simp))
    have hsp2 := span_eq_of isTokC tok (ws2 ++ ds ++ ws3) htokc hhead2
    have hhead3 : ∀ c, (ds ++ ws3).head? = some c → pyIsSpace c = false := by
      rcases ds with _ | ⟨c0, t0⟩
      · exact absurd rfl hdsne
      · intro c hc
        simp at hc
        rw [← hc]
        exact digit_not_ws (hdsc c0 (by simp))
    have hsp3 := span_eq_of pyIsSpace ws2 (ds ++ ws3) hws2a hhead3
    have hhead4 : ∀ c, ws3.head? = some c → isDigitC c = false := by
      intro c hc
      rcases ws3 with _ | ⟨c0, t0⟩
      · cases hc
      · simp at hc
        rw [← hc]
        exact ws_not_digit (hws3 c0 (by simp))
    have hsp4 := span_eq_of isDigitC ds ws3 hdsc hhead4
    have hdata : label.data = ws1 ++ (tok ++ ws2 ++ ds ++ ws3) := by
      rw [hsplit]; simp
    simp only [parse_date_from_text]
    rw [if_neg hlabel, hdata, hsp1.2]
    have e2 : (tok ++ ws2 ++ ds ++ ws3) = tok ++ (ws2 ++ ds ++ ws3) := by simp
    rw [e2, hsp2.1, hsp2.2]
    have e3 : (ws2 ++ ds ++ ws3) = ws2 ++ (ds ++ ws3) := by simp
    rw [e3, hsp3.1, hsp3.2, hsp4.1, hsp4.2]
    rw [if_neg htokne, if_neg hws2ne]
    rw [if_neg (by
      rw [not_or]
      exact ⟨hdsne, by omega⟩)]
    rw [if_neg (fun hf => by rw [List.all_eq_true.mpr hws3] at hf; cases hf)]
    rw [hidx, hs]

/-! ## Shape facts about parsed dates -/

theorem monthIdx_bounds {k : String} {m : Nat} (h : monthIdx k = some m) :
    1 ≤ m ∧ m ≤ 12 := by
  unfold monthIdx at h
  split at h <;> simp_all <;> omega

theorem digitsVal_le_99 {ds : List Char} (hlen : ds.length ≤ 2)
    (hd : ∀ c ∈ ds, isDigitC c = true) : digitsVal ds ≤ 99 := by
  match ds with
  | [] => simp [digitsVal]
  | [c] =>
    have := digit_toNat_bounds (hd c (by simp))
    simp [digitsVal]
    omega
  | [c, d] =>
    have hc := digit_toNat_bounds (hd c (by simp))
    have hd2 := digit_toNat_bounds (hd d (by simp))
    simp [digitsVal]
    omega
  | _ :: _ :: _ :: _ => simp at hlen

theorem isoFmt_ne_empty (y : Int) (m d : Nat) : isoFmt y m d ≠ "" := by
  intro h
  have hd : (isoFmt y m d).data = [] := by rw [h]
  have hmid : ("-" : String).data = ['-'] := rfl
  simp only [isoFmt, String.data_append, hmid] at hd
  simp at hd

/-- Every date produced by the textual path is non-empty and has the
shape `year-month-day` with a month of the table (1-12) and a 2-digit
day value at most 99; no calendar-day validation occurs. -/
theorem parse_date_shape {label : String} {y : Int} {s : String}
    (h : parse_date_from_text label y = some s) :
    s ≠ "" ∧ ∃ yr m d, s = isoFmt yr m d ∧ 1 ≤ m ∧ m ≤ 12 ∧ d ≤ 99 := by
  rcases (parse_date_some_iff label y s).mp h with
    ⟨ws1, tok, ws2, ds, ws3, mon, _, _, _, _, _, _, _, _, hdslen, hdsc, hidx, hs⟩
  have hb := monthIdx_bounds hidx
  refine ⟨hs ▸ isoFmt_ne_empty _ _ _, if mon < 8 then y + 1 else y, mon,
    digitsVal ds, hs, hb.1, hb.2, digitsVal_le_99 hdslen hdsc⟩

theorem parse_date_ne_some_empty (label : String) (y : Int) :
    parse_date_from_text label y ≠ some "" := by
  intro h
  exact (parse_date_shape h).1 rfl

/-- Case analysis of Python truthiness for an optional string. -/
theorem pyFalsy_cases (o : Option String) :
    pyFalsyStr o = true ∨
      ∃ s, o = some s ∧ s ≠ "" ∧ pyFalsyStr o = false := by
  cases o with
  | none => exact Or.inl rfl
  | some s =>
    by_cases hs : s = ""
    · exact Or.inl (by simp [pyFalsyStr, hs])
    · exact Or.inr ⟨s, rfl, hs, by simp [pyFalsyStr, hs]⟩

/-! ## Inversion of the per-item loop body -/

/-- A record is dropped exactly when its stripped opponent name is empty,
contains the exhibition phrase (case-insensitively), starts with
`big ten ` (case-insensitively), or its date resolves by neither path. -/
theorem rowOfItem_eq_none_iff (y : Int) (it : RawItem) :
    rowOfItem y it = none ↔
      pyStrip (it.opponent_name.getD "") = "" ∨
      pyContains (pyLower (pyStrip (it.opponent_name.getD ""))) exhibitionPhrase
        = true ∨
      pyStartsWith (pyLower (pyStrip (it.opponent_name.getD ""))) "big ten "
        = true ∨
      (pyFalsyStr it.date = true ∧
        parse_date_from_text (it.date_text.getD "") y = none) := by
  simp only [rowOfItem]
  by_cases h1 : pyStrip (it.opponent_name.getD "") = ""
  · simp [h1]
  rw [if_neg h1]
  by_cases h2 : pyContains (pyLower (pyStrip (it.opponent_name.getD "")))
      exhibitionPhrase = true
  · rw [if_pos h2]; simp [h1, h2]
  rw [if_neg h2]
  by_cases h3 : pyStartsWith (pyLower (pyStrip (it.opponent_name.getD "")))
      "big ten " = true
  · rw [if_pos h3]; simp [h1, h2, h3]
  rw [if_neg h3]
  by_cases h4 : pyFalsyStr it.date = true
  · rw [if_pos h4]
    cases hp : parse_date_from_text (it.date_text.getD "") y with
    | none => simp [h1, h2, h3, h4, hp]
    | some d =>
      have hd : d ≠ "" := fun hde => parse_date_ne_some_empty _ _ (hde ▸ hp)
      simp [h1, h2, h3, hd]
  · rcases pyFalsy_cases it.date with hf | ⟨s, hs, hsne, hff⟩
    · exact absurd hf h4
    · rw [if_neg h4, hs]
      simp [h1, h2, h3, h4, hsne, pyFalsyStr]

/-- Field-level inversion of a successful `rowOfItem`. -/
theorem rowOfItem_some_fields {y : Int} {it : RawItem} {r : Row}
    (h : rowOfItem y it = some r) :
    r.opponent = pyStrip (it.opponent_name.getD "") ∧
    pyContains (pyLower r.opponent) exhibitionPhrase = false ∧
    pyStartsWith (pyLower r.opponent) "big ten " = false ∧
    r.date ≠ "" ∧
    ((pyFalsyStr it.date = false ∧ it.date = some r.date) ∨
      parse_date_from_text (it.date_text.getD "") y = some r.date) := by
  simp only [rowOfItem] at h
  by_cases h1 : pyStrip (it.opponent_name.getD "") = ""
  · rw [if_pos h1] at h; cases h
  rw [if_neg h1] at h
  by_cases h2 : pyContains (pyLower (pyStrip (it.opponent_name.getD "")))
      exhibitionPhrase = true
  · rw [if_pos h2] at h; cases h
  rw [if_neg h2] at h
  by_cases h3 : pyStartsWith (pyLower (pyStrip (it.opponent_name.getD "")))
      "big ten " = true
  · rw [if_pos h3] at h; cases h
  rw [if_neg h3] at h
  have h2f : pyContains (pyLower (pyStrip (it.opponent_name.getD "")))
      exhibitionPhrase = false := by
    revert h2; cases pyContains (pyLower (pyStrip (it.opponent_name.getD "")))
      exhibitionPhrase <;> simp
  have h3f : pyStartsWith (pyLower (pyStrip (it.opponent_name.getD "")))
      "big ten " = false := by
    revert h3; cases pyStartsWith (pyLower (pyStrip (it.opponent_name.getD "")))
      "big ten " <;> simp
  by_cases h4 : pyFalsyStr it.date = true
  · rw [if_pos h4] at h
    cases hp : parse_date_from_text (it.date_text.getD "") y with
    | none => rw [hp] at h; cases h
    | some d =>
      rw [hp] at h
      have hd : d ≠ "" := fun hde => parse_date_ne_some_empty _ _ (hde ▸ hp)
      dsimp only at h
      rw [if_neg hd] at h
      have hr := Option.some.inj h
      refine ⟨?_, ?_, ?_, ?_, Or.inr ?_⟩ <;> rw [← hr] <;>
        simp [h1, h2f, h3f, hd, hp]
  · rcases pyFalsy_cases it.date with hf | ⟨s, hs, hsne, hff⟩
    · exact absurd hf h4
    · rw [if_neg h4, hs] at h
      dsimp only at h
      rw [if_neg hsne] at h
      have hr := Option.some.inj h
      refine ⟨?_, ?_, ?_, ?_, Or.inl ⟨hff, ?_⟩⟩ <;> rw [← hr] <;>
        simp [h1, h2f, h3f, hsne, hs]

/-! ## Image-URL resolver -/

theorem attrStep_firstNonDataUrl (x : Option String) (t : List (Option String)) :
    attrStep x (firstNonDataUrl t) = firstNonDataUrl (x :: t) := by
  cases x with
  | none => rfl
  | some v => rfl

/-- `get_img_src` implements exactly the first-present-non-data-URI
selection over (currentSrc, src, data-src). -/
theorem get_img_src_eq_firstNonDataUrl (c s d : Option String) :
    get_img_src c s d = firstNonDataUrl [c, s, d] := by
  have htail : attrStep s (attrStep d none) = firstNonDataUrl [s, d] := by
    have hd : attrStep d none = firstNonDataUrl [d] :=
      attrStep_firstNonDataUrl d []
    rw [hd, attrStep_firstNonDataUrl]
  rcases c with _ | cv <;> rcases s with _ | sv <;> rcases d with _ | dv <;>
    simp only [get_img_src, jsOrStr, htail] <;>
    simp only [attrStep, firstNonDataUrl] <;>
    split_ifs <;> simp_all

/-! ## Rank parsing bounds -/

theorem digitsVal_one_le_9 {c : Char} (h : isDigitC c = true) :
    digitsVal [c] ≤ 9 := by
  have := digit_toNat_bounds h
  simp [digitsVal]
  omega

theorem digitsVal_two_le_99 {c d : Char} (hc : isDigitC c = true)
    (hd : isDigitC d = true) : digitsVal [c, d] ≤ 99 := by
  have h1 := digit_toNat_bounds hc
  have h2 := digit_toNat_bounds hd
  simp [digitsVal]
  omega

theorem searchRankL_le_99 : ∀ (l : List Char) (r : Nat),
    searchRankL l = some r → r ≤ 99
  | [], r, h => by cases h
  | c :: t, r, h => by
    simp only [searchRankL] at h
    by_cases hc : c = '#'
    · rw [if_pos hc] at h
      cases ha : t.dropWhile pyIsSpace with
      | nil => rw [ha] at h; exact searchRankL_le_99 t r h
      | cons d1 t1 =>
        rw [ha] at h
        dsimp only at h
        by_cases hd1 : isDigitC d1 = true
        · rw [if_pos hd1] at h
          have hr := Option.some.inj h
          subst hr
          cases t1 with
          | nil => exact (digitsVal_one_le_9 hd1).trans (by omega)
          | cons d2 t2 =>
            show (if isDigitC d2 = true then digitsVal [d1, d2]
                  else digitsVal [d1]) ≤ 99
            by_cases hd2 : isDigitC d2 = true
            · rw [if_pos hd2]
              exact digitsVal_two_le_99 hd1 hd2
            · rw [if_neg hd2]
              exact (digitsVal_one_le_9 hd1).trans (by omega)
        · rw [if_neg hd1] at h
          exact searchRankL_le_99 t r h
    · rw [if_neg hc] at h
      exact searchRankL_le_99 t r h

theorem nameRankTail_rank {v : Nat} {u : List Char} {orig : String}
    {r : Nat} {t : String} (h : nameRankTail v u orig = (some r, t)) : r = v := by
  unfold nameRankTail at h
  cases u with
  | nil => cases (congrArg Prod.fst h)
  | cons c u' =>
    dsimp only at h
    by_cases hsp : pyIsSpace c = true
    · rw [if_pos hsp] at h
      by_cases hnl : ((c :: u').dropWhile pyIsSpace).dropLast.all
          (fun ch => !(ch = '\n')) = true
      · rw [if_pos hnl] at h
        exact (Option.some.inj (congrArg Prod.fst h)).symm
      · rw [if_neg hnl] at h
        cases (congrArg Prod.fst h)
    · rw [if_neg hsp] at h
      cases (congrArg Prod.fst h)

theorem nameRankMatch_rank_le_99 (s : String) (r : Nat) (t : String)
    (h : nameRankMatch s = (some r, t)) : r ≤ 99 := by
  unfold nameRankMatch at h
  split at h
  · rename_i rest
    split at h
    · rename_i d1 t1 heq
      split at h
      · rename_i hd1
        cases t1 with
        | nil => cases (congrArg Prod.fst h)
        | cons d2 t2 =>
          dsimp only at h
          by_cases hd2 : isDigitC d2 = true
          · rw [if_pos hd2] at h
            have := nameRankTail_rank h
            subst this
            exact digitsVal_two_le_99 hd1 hd2
          · rw [if_neg hd2] at h
            have := nameRankTail_rank h
            subst this
            exact (digitsVal_one_le_9 hd1).trans (by omega)
      · cases (congrArg Prod.fst h)
    · cases (congrArg Prod.fst h)
  · cases (congrArg Prod.fst h)

/-! ## Strip and slug lemmas -/

theorem dropWhile_eq_self_of_head {p : Char → Bool} :
    ∀ {l : List Char}, (∀ c, l.head? = some c → p c = false) →
      l.dropWhile p = l
  | [], _ => rfl
  | c :: t, h => by
    simp [List.dropWhile_cons, h c rfl]

theorem head?_dropWhile {p : Char → Bool} :
    ∀ {l : List Char} {c : Char}, (l.dropWhile p).head? = some c → p c = false
  | [], c, h => by cases h
  | a :: t, c, h => by
    by_cases ha : p a = true
    · rw [List.dropWhile_cons, if_pos ha] at h
      exact head?_dropWhile h
    · have haf : p a = false := by revert ha; cases p a <;> simp
      rw [List.dropWhile_cons, if_neg (by simp [haf])] at h
      simp at h
      rw [← h]
      exact haf

theorem dropWhile_idem (p : Char → Bool) (l : List Char) :
    (l.dropWhile p).dropWhile p = l.dropWhile p :=
  dropWhile_eq_self_of_head fun _ hc => head?_dropWhile hc

theorem dropWhile_suffix_ex (p : Char → Bool) :
    ∀ (l : List Char), ∃ t, t ++ l.dropWhile p = l ∧ ∀ c ∈ t, p c = true
  | [] => ⟨[], rfl, by simp⟩
  | c :: t => by
    by_cases hc : p c = true
    · obtain ⟨pre, hpre, hall⟩ := dropWhile_suffix_ex p t
      refine ⟨c :: pre, by simp [List.dropWhile_cons, hc, hpre], ?_⟩
      intro d hd
      rcases List.mem_cons.mp hd with rfl | hd'
      · exact hc
      · exact hall d hd'
    · have hcf : p c = false := by revert hc; cases p c <;> simp
      exact ⟨[], by simp [List.dropWhile_cons, hcf], by simp⟩

theorem mem_of_mem_dropWhile {p : Char → Bool} {l : List Char} {c : Char}
    (h : c ∈ l.dropWhile p) : c ∈ l := by
  obtain ⟨pre, hpre, _⟩ := dropWhile_suffix_ex p l
  rw [← hpre]
  exact List.mem_append_right _ h

theorem mem_of_mem_pyStripL {l : List Char} {c : Char}
    (h : c ∈ pyStripL l) : c ∈ l := by
  simp only [pyStripL, List.mem_reverse] at h
  have h2 := mem_of_mem_dropWhile h
  simp only [List.mem_reverse] at h2
  exact mem_of_mem_dropWhile h2

theorem pyStripL_idem (l : List Char) : pyStripL (pyStripL l) = pyStripL l := by
  have hA : ∀ c, ((l.dropWhile pyIsSpace).reverse.dropWhile pyIsSpace).reverse.head?
      = some c → pyIsSpace c = false := by
    intro c hc
    obtain ⟨pre, hpre, _⟩ := dropWhile_suffix_ex pyIsSpace (l.dropWhile pyIsSpace).reverse
    have hAeq : l.dropWhile pyIsSpace =
        ((l.dropWhile pyIsSpace).reverse.dropWhile pyIsSpace).reverse ++ pre.reverse := by
      have := congrArg List.reverse hpre
      simp at this
      conv_lhs => rw [← List.reverse_reverse (l.dropWhile pyIsSpace), ← hpre]
      simp
    cases hBr : ((l.dropWhile pyIsSpace).reverse.dropWhile pyIsSpace).reverse with
    | nil => rw [hBr] at hc; cases hc
    | cons b bs =>
      rw [hBr] at hc
      simp at hc
      apply head?_dropWhile (l := l) (c := c)
      rw [hAeq, hBr]
      simp [hc]
  have h1 : (((l.dropWhile pyIsSpace).reverse.dropWhile pyIsSpace).reverse).dropWhile
      pyIsSpace = ((l.dropWhile pyIsSpace).reverse.dropWhile pyIsSpace).reverse :=
    dropWhile_eq_self_of_head hA
  show ((((pyStripL l).dropWhile pyIsSpace).reverse).dropWhile pyIsSpace).reverse
      = pyStripL l
  unfold pyStripL
  rw [h1, List.reverse_reverse, dropWhile_idem]

theorem pyStrip_idem (s : String) : pyStrip (pyStrip s) = pyStrip s := by
  unfold pyStrip
  rw [show (String.mk (pyStripL s.data)).data = pyStripL s.data from rfl,
    pyStripL_idem]

theorem mk_eq_empty_iff (l : List Char) : String.mk l = "" ↔ l = [] := by
  constructor
  · intro h
    have : (String.mk l).data = ("" : String).data := by rw [h]
    simpa using this
  · intro h; rw [h]

theorem dashGo_inRun_of_none {l : List Char}
    (h : ∀ c ∈ l, isLowAlnumC c = false) : dashNonAlnumGo true l = [] := by
  induction l with
  | nil => rfl
  | cons c t ih =>
    have hc : isLowAlnumC c = false := h c (List.mem_cons_self c t)
    have hstep : dashNonAlnumGo true (c :: t) = dashNonAlnumGo true t := by
      simp [dashNonAlnumGo, hc]
    rw [hstep]
    exact ih fun d hd => h d (List.mem_cons_of_mem c hd)

theorem dashNonAlnum_of_none {l : List Char} (hne : l ≠ [])
    (h : ∀ c ∈ l, isLowAlnumC c = false) : dashNonAlnum l = ['-'] := by
  cases l with
  | nil => exact absurd rfl hne
  | cons c t =>
    have hc : isLowAlnumC c = false := h c (List.mem_cons_self c t)
    have hstep : dashNonAlnum (c :: t) = '-' :: dashNonAlnumGo true t := by
      simp [dashNonAlnum, dashNonAlnumGo, hc]
    rw [hstep, dashGo_inRun_of_none fun d hd => h d (List.mem_cons_of_mem c hd)]

/-- `slug` of a string without ASCII alphanumerics is empty. -/
theorem slug_of_no_alnum {s : String} (h : ∀ c ∈ s.data, isAlnumC c = false) :
    slug s = "" := by
  have hmap : ∀ c ∈ (pyLower s).data, isLowAlnumC c = false := by
    intro c hc
    simp only [pyLower] at hc
    rcases List.mem_map.mp hc with ⟨c0, hc0, hlc⟩
    have h0 := h c0 hc0
    simp only [isAlnumC, Bool.or_eq_false_iff, isAlphaC, isDigitC] at h0
    have hl : lowerC c0 = c0 := by
      unfold lowerC
      rw [if_neg (by
        simp only [Bool.and_eq_true, decide_eq_true_eq, not_and]
        intro h65
        rcases h0 with ⟨hd, ha⟩
        simp only [Bool.or_eq_false_iff, Bool.and_eq_false_iff] at ha
        rcases ha.1 with hx | hx <;> simp at hx <;> omega)]
    rw [← hlc, hl]
    simp only [isLowAlnumC, Bool.or_eq_false_iff]
    rcases h0 with ⟨hd, ha⟩
    simp only [Bool.or_eq_false_iff, Bool.and_eq_false_iff] at ha ⊢
    refine ⟨by simpa [isDigitC] using hd, ?_⟩
    rcases ha.2 with hx | hx <;> simp at hx ⊢ <;> omega
  have hstrip : ∀ c ∈ pyStripL (pyLower s).data, isLowAlnumC c = false :=
    fun c hc => hmap c (mem_of_mem_pyStripL hc)
  have hform : slug s = String.mk (stripDashes (collapseDashes
      (dashNonAlnum (pyStripL (pyLower s).data)))) := rfl
  rw [hform]
  by_cases hne : pyStripL (pyLower s).data = []
  · rw [hne]
    rfl
  · rw [dashNonAlnum_of_none hne hstrip]
    rfl

theorem isAlnum_of_isAlpha {c : Char} (h : isAlphaC c = true) :
    isAlnumC c = true := by
  simp [isAlnumC, h]

/-- `pbFind` cannot locate the literal in text without ASCII letters. -/
theorem pbFind_none_of_no_alpha :
    ∀ {l : List Char}, (∀ c ∈ l, isAlphaC c = false) → ∀ j, pbFind l j = none
  | [], _, _ => rfl
  | c :: t, h, j => by
    have hc := h c (by simp)
    have hlit : litAt pbLit (c :: t) = false := by
      have hl : lowerC c = c := by
        unfold lowerC
        rw [if_neg (by
          simp only [Bool.and_eq_true, decide_eq_true_eq, not_and]
          intro h65 h90
          simp only [isAlphaC, Bool.or_eq_false_iff, Bool.and_eq_false_iff] at hc
          rcases hc.1 with hx | hx <;> simp at hx <;> omega)]
      have hcp : c ≠ 'p' := by
        intro hcp
        rw [hcp] at hc
        simp [isAlphaC] at hc
      have hpc : ('p' = c) ↔ False := ⟨fun he => hcp he.symm, False.elim⟩
      unfold litAt
      rw [show pbLit = 'p' :: "resented by".data from rfl]
      simp only [List.map_cons, isPrefixL, hl]
      simp [hpc]
    simp only [pbFind, hlit, Bool.false_and, Bool.false_eq_true, if_false]
    exact pbFind_none_of_no_alpha (fun d hd => h d (by simp [hd])) (j + 1)

theorem subPresentedBy_of_no_alpha {s : String}
    (h : ∀ c ∈ s.data, isAlphaC c = false) : subPresentedBy s = s := by
  simp only [subPresentedBy, pbFind_none_of_no_alpha h 0]

/-! ## Final shared lemmas -/

/-- When the capture stamp parses, `normalize` ignores the ambient time. -/
theorem normalize_of_parse {s : String} {c : PyDateTime}
    (h : fromisoToCentral s = some c) (items : List RawItem) (now : PyDateTime) :
    normalize items s now =
      stableSort rowLe (items.filterMap (rowOfItem (detect_season_start_year c))) := by
  unfold normalize
  rw [h]
  rfl

/-- Provenance of an output row: some input item produced it. -/
theorem mem_normalize {items : List RawItem} {s : String} {now : PyDateTime}
    {r : Row} (h : r ∈ normalize items s now) :
    ∃ it ∈ items,
      rowOfItem (detect_season_start_year ((fromisoToCentral s).getD now)) it
        = some r := by
  unfold normalize at h
  rw [mem_stableSort] at h
  exact List.mem_filterMap.mp h

/-- A string kept by `firstNonDataUrl` never starts with `data:image`. -/
theorem firstNonDataUrl_some : ∀ (l : List (Option String)) (r : String),
    firstNonDataUrl l = some r → pyStartsWith r "data:image" = false
  | [], r, h => by cases h
  | x :: t, r, h => by
    cases x with
    | none => exact firstNonDataUrl_some t r h
    | some v =>
      simp only [firstNonDataUrl] at h
      by_cases hv : (!(v = "") && !pyStartsWith v "data:image") = true
      · rw [if_pos hv] at h
        have := Option.some.inj h
        subst this
        simp only [Bool.and_eq_true, Bool.not_eq_true'] at hv
        exact hv.2
      · rw [if_neg hv] at h
        exact firstNonDataUrl_some t r h

/-- The sort key as the specification's sort invariant words it:
`(A.date, A.time_local or "23:59")`. -/
def claimSortKey (r : Row) : String × String :=
  (r.date,
   match r.time_local with
   | none => "23:59"
   | some t => if t = "" then "23:59" else t)

theorem sortKey_eq_claimKey {r : Row} (h : r.date ≠ "") :
    sortKeyRow r = claimSortKey r := by
  unfold sortKeyRow claimSortKey
  rw [if_neg h]

/-- `YYYY-MM-DD` shape plus calendar validity, as the spec's
date-resolution invariant words it. -/
def isValidISODate (s : String) : Bool :=
  match s.data with
  | [y1, y2, y3, y4, '-', m1, m2, '-', d1, d2] =>
    [y1, y2, y3, y4, m1, m2, d1, d2].all isDigitC &&
    (let y := digitsVal [y1, y2, y3, y4]
     let m := digitsVal [m1, m2]
     let d := digitsVal [d1, d2]
     1 ≤ m && m ≤ 12 && 1 ≤ d && d ≤ daysInMonth (Int.ofNat y) m)
  | _ => false

/-! ## Claims -/

/-- C1: for the raw item with opponent name `#4 Purdue` (fed through the
Extractor's name-rank strip, which yields rank 4 and name `Purdue`),
date text `Feb 1`, null status and result `W 78-65`, captured at
`2025-02-02T00:00:00Z`, the Normalizer emits exactly one canonical row
with date `2025-02-01`, opponent `Purdue`, opp_rank 4, status `final`,
result `W 78-65` and result_css `W` — independently of the ambient
current time. -/
theorem c1_end_to_end (now : PyDateTime) :
    nameRankMatch "#4 Purdue" = (some 4, "Purdue") ∧
    normalize
      [{ opponent_name := some (nameRankMatch "#4 Purdue").2,
         opp_rank := (nameRankMatch "#4 Purdue").1.map Int.ofNat,
         date_text := some "Feb 1", status := none,
         result := some ⟨some "W", some "78-65"⟩ }]
      "2025-02-02T00:00:00Z" now =
    [{ date := "2025-02-01", time_local := none, home_away := "N",
       nu_rank := none, opponent := "Purdue", opp_rank := some 4,
       title := "Purdue", arena := none, city := none,
       arena_key := "unknown", nu_logo := none, opp_logo := none,
       tv_logo := none, tv := [], status := "final",
       result := some "W 78-65", result_css := some "W",
       notes := none, links := [] }] := by
  refine ⟨by decide, ?_⟩
  rw [normalize_of_parse (c := ⟨2025, 2, 1, 18, 0, 0⟩) (by decide)]
  decide

/-- C2 counterexample: the raw item with opponent `Iowa` and date text
`Feb 31` produces a canonical row whose date `2025-02-31` is not a real
calendar date — the Normalizer never validates days against the
calendar, so the claim as stated is false. -/
theorem c2_counterexample :
    (normalize [{ opponent_name := some "Iowa", date_text := some "Feb 31" }]
        "2025-02-02T00:00:00Z" ⟨2025, 2, 1, 18, 0, 0⟩).map Row.date
      = ["2025-02-31"] ∧
    isValidISODate "2025-02-31" = false := by
  constructor
  · decide
  · decide

/-- C2 amended: every canonical row's date is non-empty and is either the
raw item's `date` field taken verbatim (unvalidated) or a textual parse of
the shape `year-month-day` with month 1-12 and a day value at most 99 that
is not checked against the calendar. -/
theorem c2_amended (items : List RawItem) (s : String) (now : PyDateTime)
    (r : Row) (h : r ∈ normalize items s now) :
    r.date ≠ "" ∧
    ((∃ it ∈ items, it.date = some r.date) ∨
     ∃ yr m d, r.date = isoFmt yr m d ∧ 1 ≤ m ∧ m ≤ 12 ∧ d ≤ 99) := by
  obtain ⟨it, hit, hrow⟩ := mem_normalize h
  obtain ⟨_, _, _, hne, hdate⟩ := rowOfItem_some_fields hrow
  refine ⟨hne, ?_⟩
  rcases hdate with ⟨_, hd⟩ | hp
  · exact Or.inl ⟨it, hit, hd⟩
  · exact Or.inr (parse_date_shape hp).2

/-- C2 witness: the amended claim applied to the single row produced from
a concrete blob. -/
theorem c2_amended_witness :
    ({ date := "2024-11-05", time_local := none, home_away := "N",
       nu_rank := none, opponent := "Iowa", opp_rank := none,
       title := "Iowa", arena := none, city := none,
       arena_key := "unknown", nu_logo := none, opp_logo := none,
       tv_logo := none, tv := [], status := "scheduled",
       result := none, result_css := none,
       notes := none, links := [] } : Row).date ≠ "" ∧
    ((∃ it ∈ [({ opponent_name := some "Iowa",
                 date_text := some "Nov 5" } : RawItem)],
        it.date = some "2024-11-05") ∨
     ∃ yr m d, ("2024-11-05" : String) = isoFmt yr m d ∧
       1 ≤ m ∧ m ≤ 12 ∧ d ≤ 99) :=
  c2_amended [{ opponent_name := some "Iowa", date_text := some "Nov 5" }]
    "2024-11-04T00:00:00Z" ⟨2024, 11, 3, 18, 0, 0⟩ _ (by decide)

/-- C3 counterexample: with an unparseable capture stamp the Normalizer
substitutes the current time, so two runs of the very same raw blob at
different current times (one in February, one in April) give different
canonical output — byte-identical output is not guaranteed for every
blob. -/
theorem c3_counterexample :
    ¬ (normalize [{ opponent_name := some "Iowa", date_text := some "Jan 10" }]
         "" ⟨2025, 2, 1, 12, 0, 0⟩ =
       normalize [{ opponent_name := some "Iowa", date_text := some "Jan 10" }]
         "" ⟨2025, 4, 1, 12, 0, 0⟩) := by
  decide

/-- C3 amended: whenever the capture stamp parses (as an offset-aware ISO
timestamp), the canonical output is a function of the blob alone, so any
two runs yield byte-identical output; only a missing or unparseable
stamp makes the output depend on the run's current time. -/
theorem c3_amended (items : List RawItem) (s : String)
    (now1 now2 : PyDateTime) (h : (fromisoToCentral s).isSome = true) :
    normalize items s now1 = normalize items s now2 := by
  rcases Option.isSome_iff_exists.mp h with ⟨c, hc⟩
  rw [normalize_of_parse hc, normalize_of_parse hc]

/-- C3 witness: two runs at different current times agree on a blob whose
stamp parses. -/
theorem c3_amended_witness :
    (fromisoToCentral "2025-02-02T00:00:00Z").isSome = true ∧
    normalize [{ opponent_name := some "Iowa", date_text := some "Jan 10" }]
        "2025-02-02T00:00:00Z" ⟨2025, 2, 1, 12, 0, 0⟩ =
      normalize [{ opponent_name := some "Iowa", date_text := some "Jan 10" }]
        "2025-02-02T00:00:00Z" ⟨2025, 4, 1, 12, 0, 0⟩ :=
  ⟨by decide,
   c3_amended [{ opponent_name := some "Iowa", date_text := some "Jan 10" }]
     "2025-02-02T00:00:00Z" ⟨2025, 2, 1, 12, 0, 0⟩ ⟨2025, 4, 1, 12, 0, 0⟩
     (by decide)⟩

/-- C4: season-start-year inference returns the previous calendar year
exactly for capture months January-March and the capture year otherwise;
and the capture stamp `2025-02-01T12:00:00Z` converts to the US Central
civil time `2025-02-01 06:00` whose inferred season start year is 2024. -/
theorem c4_season_year :
    (∀ dt : PyDateTime, 1 ≤ dt.month → dt.month ≤ 12 →
      detect_season_start_year dt =
        if dt.month = 1 ∨ dt.month = 2 ∨ dt.month = 3 then dt.year - 1
        else dt.year) ∧
    fromisoToCentral "2025-02-01T12:00:00Z" = some ⟨2025, 2, 1, 6, 0, 0⟩ ∧
    detect_season_start_year ⟨2025, 2, 1, 6, 0, 0⟩ = 2024 := by
  refine ⟨?_, by decide, by decide⟩
  intro dt h1 h2
  unfold detect_season_start_year
  by_cases h : dt.month ≤ 3
  · rw [if_pos h, if_pos (by omega)]
  · rw [if_neg h, if_neg (by omega)]

/-- C4 witness: the month rule applied at a concrete May capture. -/
theorem c4_season_year_witness :
    detect_season_start_year ⟨2025, 5, 1, 12, 0, 0⟩ =
      if (5 : Nat) = 1 ∨ (5 : Nat) = 2 ∨ (5 : Nat) = 3
      then (2025 : Int) - 1 else 2025 :=
  c4_season_year.1 ⟨2025, 5, 1, 12, 0, 0⟩ (by decide) (by decide)

/-- C5: the textual date parser returns exactly the dates described by the
`<month-token> <day>` pattern (token of letters and periods matched on its
first three letters against the month table, 1-2 digit day, surrounding
whitespace allowed), with season year Y for August-December and Y+1 for
January-July; `Nov 5` resolves to 2024-11-05 and `Jan 10` to 2025-01-10
at season start 2024; and a record resolvable by neither the ISO nor the
textual path is dropped. -/
theorem c5_text_date :
    (∀ (label : String) (y : Int) (s : String),
      parse_date_from_text label y = some s ↔ TextDatePattern label y s) ∧
    parse_date_from_text "Nov 5" 2024 = some "2024-11-05" ∧
    parse_date_from_text "Jan 10" 2024 = some "2025-01-10" ∧
    (∀ (y : Int) (it : RawItem), pyFalsyStr it.date = true →
      parse_date_from_text (it.date_text.getD "") y = none →
      rowOfItem y it = none) := by
  refine ⟨parse_date_some_iff, by decide, by decide, ?_⟩
  intro y it h1 h2
  exact (rowOfItem_eq_none_iff y it).mpr (Or.inr (Or.inr (Or.inr ⟨h1, h2⟩)))

/-- C5 witness: an item with an unresolvable date is dropped. -/
theorem c5_text_date_witness :
    rowOfItem 2024
      { opponent_name := some "Iowa", date_text := some "TBA" } = none :=
  c5_text_date.2.2.2 2024
    { opponent_name := some "Iowa", date_text := some "TBA" }
    (by decide) (by decide)

/-- C6 counterexample: the opponent name `NU Opening Night Presented by
SCHEELS` contains the exhibition phrase without being equal to it; the
record is dropped (the code tests substring containment, not exact
match), so the claimed drop condition fails in its "equals" clause. -/
theorem c6_counterexample :
    normalize [{ opponent_name := some "NU Opening Night Presented by SCHEELS",
                 date := some "2025-10-20" }] "2025-10-01T12:00:00Z"
        ⟨2025, 10, 1, 0, 0, 0⟩ = [] ∧
    pyStrip "NU Opening Night Presented by SCHEELS" ≠ "" ∧
    pyLower (pyStrip "NU Opening Night Presented by SCHEELS")
      ≠ exhibitionPhrase ∧
    pyStartsWith (pyLower (pyStrip "NU Opening Night Presented by SCHEELS"))
      "big ten " = false ∧
    pyFalsyStr (some "2025-10-20") = false :=
  ⟨by decide, by decide, by decide, by decide, by decide⟩

/-- C6 amended: a record is dropped iff its stripped opponent name is
empty, or case-insensitively CONTAINS the exhibition phrase (not merely
equals it), or begins case-insensitively with `big ten `, or its date is
unresolvable; consequently no output row's opponent contains the phrase
or begins with the prefix, case-insensitively. -/
theorem c6_amended :
    (∀ (y : Int) (it : RawItem), rowOfItem y it = none ↔
      pyStrip (it.opponent_name.getD "") = "" ∨
      pyContains (pyLower (pyStrip (it.opponent_name.getD "")))
        exhibitionPhrase = true ∨
      pyStartsWith (pyLower (pyStrip (it.opponent_name.getD ""))) "big ten "
        = true ∨
      (pyFalsyStr it.date = true ∧
        parse_date_from_text (it.date_text.getD "") y = none)) ∧
    (∀ (items : List RawItem) (s : String) (now : PyDateTime) (r : Row),
      r ∈ normalize items s now →
      pyContains (pyLower r.opponent) exhibitionPhrase = false ∧
      pyStartsWith (pyLower r.opponent) "big ten " = false) := by
  refine ⟨rowOfItem_eq_none_iff, ?_⟩
  intro items s now r h
  obtain ⟨it, hit, hrow⟩ := mem_normalize h
  obtain ⟨_, h2, h3, _, _⟩ := rowOfItem_some_fields hrow
  exact ⟨h2, h3⟩

/-- C6 witness: the filtering consequence at a concrete output row. -/
theorem c6_amended_witness :
    pyContains (pyLower "Iowa") exhibitionPhrase = false ∧
    pyStartsWith (pyLower "Iowa") "big ten " = false :=
  c6_amended.2 [{ opponent_name := some "Iowa", date_text := some "Nov 5" }]
    "2024-11-04T00:00:00Z" ⟨2024, 11, 3, 18, 0, 0⟩
    { date := "2024-11-05", time_local := none, home_away := "N",
      nu_rank := none, opponent := "Iowa", opp_rank := none, title := "Iowa",
      arena := none, city := none, arena_key := "unknown", nu_logo := none,
      opp_logo := none, tv_logo := none, tv := [], status := "scheduled",
      result := none, result_css := none, notes := none, links := [] }
    (by decide)

/-- C7: adjacent output rows are ordered by the key
`(date, time_local or "23:59")` under lexicographic string comparison,
an absent (or empty) time sorting as `23:59`. -/
theorem c7_sort_invariant (items : List RawItem) (s : String)
    (now : PyDateTime) :
    (normalize items s now).Chain' (fun a b =>
      keyLeB (claimSortKey a) (claimSortKey b) = true) := by
  have hp := normalize_pairwise items s now
  have hp2 : (normalize items s now).Pairwise (fun a b =>
      keyLeB (claimSortKey a) (claimSortKey b) = true) := by
    refine hp.imp_of_mem ?_
    intro a b ha hb hab
    obtain ⟨ita, _, hra⟩ := mem_normalize ha
    obtain ⟨itb, _, hrb⟩ := mem_normalize hb
    have hda := (rowOfItem_some_fields hra).2.2.2.1
    have hdb := (rowOfItem_some_fields hrb).2.2.2.1
    unfold rowLe at hab
    rw [sortKey_eq_claimKey hda, sortKey_eq_claimKey hdb] at hab
    exact hab
  exact hp2.chain'

/-- C8 counterexample: a zero rank in the name prefix IS matched (giving
rank 0, not "no rank"), and a three-digit rank in a wrapper or rank-label
text yields its first two digits via the unanchored search (rank 12, not
"no rank"). -/
theorem c8_counterexample :
    (nameRankMatch "#0 Iowa").1 = some 0 ∧ searchRank "#123" = some 12 :=
  ⟨by decide, by decide⟩

/-- C8 amended: every rank any path produces is a 1-2 digit value (at
most 99) taken after a `#` marker; the anchored name-prefix path rejects
a 3-digit rank outright but accepts `#0` as rank 0, while the unanchored
wrapper/label search takes the first 1-2 digits, so `#123` gives 12 and
`#0` gives 0. -/
theorem c8_amended :
    (∀ (s : String) (r : Nat) (t : String),
      nameRankMatch s = (some r, t) → r ≤ 99) ∧
    (∀ (s : String) (r : Nat), searchRank s = some r → r ≤ 99) ∧
    nameRankMatch "#123 Iowa" = (none, "#123 Iowa") ∧
    nameRankMatch "#0 Iowa" = (some 0, "Iowa") ∧
    searchRank "#123" = some 12 ∧ searchRank "#0" = some 0 := by
  refine ⟨nameRankMatch_rank_le_99,
    fun s r h => searchRankL_le_99 s.data r h,
    by decide, by decide, by decide, by decide⟩

/-- C8 witness: the rank bound applied at a concrete matched name. -/
theorem c8_amended_witness :
    nameRankMatch "#4 Purdue" = (some 4, "Purdue") ∧ (4 : Nat) ≤ 99 :=
  ⟨by decide, c8_amended.1 "#4 Purdue" 4 "Purdue" (by decide)⟩

/-- C9: the image-URL resolver returns the first of (currently rendered
source, src attribute, data-src attribute) that is present (non-empty)
and does not begin with `data:image`, and no URL otherwise; hence no
resolved value, including each logo field of a raw record, ever begins
with `data:image`. -/
theorem c9_img_src :
    (∀ current src dataSrc : Option String,
      get_img_src current src dataSrc
        = firstNonDataUrl [current, src, dataSrc]) ∧
    (∀ (current src dataSrc : Option String) (r : String),
      get_img_src current src dataSrc = some r →
      pyStartsWith r "data:image" = false) ∧
    (∀ (w1 w2 tvimg : Option (Option String × Option String × Option String))
        (r : String),
      ((logoFieldsOfEvent w1 w2 tvimg).1 = some r ∨
       (logoFieldsOfEvent w1 w2 tvimg).2.1 = some r ∨
       (logoFieldsOfEvent w1 w2 tvimg).2.2 = some r) →
      pyStartsWith r "data:image" = false) := by
  have h2 : ∀ (c s d : Option String) (r : String),
      get_img_src c s d = some r → pyStartsWith r "data:image" = false := by
    intro c s d r h
    rw [get_img_src_eq_firstNonDataUrl] at h
    exact firstNonDataUrl_some _ _ h
  refine ⟨get_img_src_eq_firstNonDataUrl, h2, ?_⟩
  intro w1 w2 tvimg r hr
  rcases hr with h | h | h
  · cases w1 with
    | none => simp [logoFieldsOfEvent] at h
    | some a =>
      simp only [logoFieldsOfEvent, Option.some_bind] at h
      exact h2 _ _ _ _ h
  · cases w2 with
    | none => simp [logoFieldsOfEvent] at h
    | some a =>
      simp only [logoFieldsOfEvent, Option.some_bind] at h
      exact h2 _ _ _ _ h
  · cases tvimg with
    | none => simp [logoFieldsOfEvent] at h
    | some a =>
      simp only [logoFieldsOfEvent, Option.some_bind] at h
      exact h2 _ _ _ _ h

/-- C9 witness: the non-data-URI guarantee at a concrete resolution. -/
theorem c9_img_src_witness : pyStartsWith "http://x" "data:image" = false :=
  c9_img_src.2.1 (some "http://x") none none "http://x" (by decide)

/-- C10 counterexample: an arena of `presented by SCHEELS` is present,
non-whitespace and full of letters, yet its row's arena_key is
`unknown` — the `presented by` stripping empties the arena before the
`or "unknown"` default applies, so "unknown only when arena absent or
whitespace-only" is false. -/
theorem c10_counterexample :
    (normalize [{ opponent_name := some "Iowa", date := some "2025-11-05",
                  arena := some "presented by SCHEELS" }]
        "2025-10-01T12:00:00Z" ⟨2025, 10, 1, 0, 0, 0⟩).map Row.arena_key
      = ["unknown"] ∧
    pyStrip "presented by SCHEELS" ≠ "" ∧
    "presented by SCHEELS".data.any isAlnumC = true :=
  ⟨by decide, by decide, by decide⟩

/-- C10 amended: an arena that is present, non-whitespace and free of
ASCII alphanumerics slugs to the empty arena_key; and the `unknown` key
arises exactly when the arena is absent or whitespace-only, or the
`presented by` stripping leaves it empty, or the processed arena text
itself slugs to `unknown`. -/
theorem c10_amended :
    (∀ a : String, pyStrip a ≠ "" → (∀ c ∈ a.data, isAlnumC c = false) →
      arenaKeyOfRaw (some a) = "") ∧
    (∀ o : Option String, arenaKeyOfRaw o = "unknown" ↔
      (pyStrip (o.getD "") = "" ∨
       pyStrip (subPresentedBy (pyStrip (o.getD ""))) = "" ∨
       slug (pyStrip (subPresentedBy (pyStrip (o.getD "")))) = "unknown")) := by
  constructor
  · intro a h1 h2
    have hsub : ∀ c ∈ (pyStrip a).data, isAlnumC c = false := by
      intro c hc
      exact h2 c (mem_of_mem_pyStripL hc)
    have halpha : ∀ c ∈ (pyStrip a).data, isAlphaC c = false := by
      intro c hc
      have h := hsub c hc
      simp only [isAlnumC, Bool.or_eq_false_iff] at h
      exact h.2
    simp only [arenaKeyOfRaw, arenaFieldOfRaw, Option.getD_some]
    rw [if_neg h1, subPresentedBy_of_no_alpha halpha, pyStrip_idem]
    rw [show pyOrStr (some (pyStrip a)) "unknown" = pyStrip a from by
      simp [pyOrStr, h1]]
    exact slug_of_no_alnum hsub
  · intro o
    simp only [arenaKeyOfRaw, arenaFieldOfRaw]
    by_cases h0 : pyStrip (o.getD "") = ""
    · rw [if_pos h0]
      have hu : slug (pyOrStr none "unknown") = "unknown" := by decide
      rw [hu]
      simp [h0]
    · rw [if_neg h0]
      by_cases h1 : pyStrip (subPresentedBy (pyStrip (o.getD ""))) = ""
      · rw [h1]
        have hu : slug (pyOrStr (some "") "unknown") = "unknown" := by decide
        rw [hu]
        simp [h0, h1]
      · rw [show pyOrStr
            (some (pyStrip (subPresentedBy (pyStrip (o.getD ""))))) "unknown"
            = pyStrip (subPresentedBy (pyStrip (o.getD ""))) from by
          simp [pyOrStr, h1]]
        simp [h0, h1]

/-- C10 witness: a letterless, digitless arena gets an empty key. -/
theorem c10_amended_witness : arenaKeyOfRaw (some "???") = "" :=
  c10_amended.1 "???" (by decide) (by decide)

end MBB
